import Mathlib

/-!
Verification development for the AstroSummary analysis and allocation engine.

The TypeScript sources are embedded shallowly:
* JavaScript strings become `List Char` (wrapped in `String` at the API),
* JavaScript numbers become `ℚ` (exact rationals; `toFixed(2)` becomes
  rounding to a multiple of 1/100),
* JavaScript objects / records become association lists or explicitly
  defaulted lookup functions,
* possibly-missing (`undefined`) fields become `Option`.

Sections follow the source files:
`filters.ts` (FilterNormalizer), `analysis.ts` (FrameAggregator /
GoalResolver), `RatioPlanner.tsx` (AllocationEngine),
`scan.ts` + `AppContext.tsx` (frame ingestion), and a spec-modelled
BurstDetector (the detector itself lives in the backend service, outside
the embedded frontend sources).
-/

/-! ### JavaScript string primitives -/

/-- The whitespace characters recognised by JavaScript `String.prototype.trim`
and by the regex class `\s` (WhiteSpace ∪ LineTerminator). -/
def jsWhitespaceChars : List Char :=
  [' ', '\t', '\n', '\r', Char.ofNat 0x0B, Char.ofNat 0x0C,
   Char.ofNat 0xA0, Char.ofNat 0x1680,
   Char.ofNat 0x2000, Char.ofNat 0x2001, Char.ofNat 0x2002, Char.ofNat 0x2003,
   Char.ofNat 0x2004, Char.ofNat 0x2005, Char.ofNat 0x2006, Char.ofNat 0x2007,
   Char.ofNat 0x2008, Char.ofNat 0x2009, Char.ofNat 0x200A,
   Char.ofNat 0x2028, Char.ofNat 0x2029, Char.ofNat 0x202F,
   Char.ofNat 0x205F, Char.ofNat 0x3000, Char.ofNat 0xFEFF]

/-- Whether a character is JavaScript whitespace. -/
def isJsWhitespace (c : Char) : Bool := jsWhitespaceChars.contains c

/-- JavaScript `String.prototype.trim`: drop whitespace from both ends. -/
def jsTrim (l : List Char) : List Char :=
  ((l.dropWhile isJsWhitespace).reverse.dropWhile isJsWhitespace).reverse

/-- JavaScript `toLowerCase` on one character, for the alphabet that filter
names use: ASCII letters plus the Greek capital alpha (other characters are
untouched, which is all the normalizer's rule table can observe). -/
def jsToLowerChar (c : Char) : Char :=
  if 'A' ≤ c ∧ c ≤ 'Z' then Char.ofNat (c.toNat + 32)
  else if c = 'Α' then 'α' else c

/-- Whether `text` starts with `pat` (JavaScript `startsWith`). -/
def listStartsWith : List Char → List Char → Bool
  | _, [] => true
  | [], _ :: _ => false
  | a :: as, b :: bs => a = b && listStartsWith as bs

/-- JavaScript `String.prototype.includes`: contiguous-substring test. -/
def jsIncludes : List Char → List Char → Bool
  | [], pat => pat.isEmpty
  | t@(_ :: rest), pat => listStartsWith t pat || jsIncludes rest pat

/-! ### FilterNormalizer (`src/astrosummary-ui/src/library/filters.ts`) -/

/-- The tail of the regex `/^h\s*a$/`: whitespace characters then a final 'a'. -/
def haMatchTail : List Char → Bool
  | ['a'] => true
  | c :: rest => isJsWhitespace c && haMatchTail rest
  | [] => false

/-- The regex test `/^h\s*a$/.test(lower)`. -/
def hsaRegex : List Char → Bool
  | 'h' :: rest => haMatchTail rest
  | _ => false

/-- `lower.replace(/α/g, 'a')` on one character. -/
def alphaChar (c : Char) : Char := if c = 'α' then 'a' else c

/-- Characters kept by `replace(/[^a-z0-9]/g, '')`. -/
def isTokenChar (c : Char) : Bool :=
  ('a' ≤ c && c ≤ 'z') || ('0' ≤ c && c ≤ '9')

/-- `raw.toLowerCase()`. -/
def lowerOf (raw : List Char) : List Char := raw.map jsToLowerChar

/-- The compact matching token: lower-case, alpha-normalised, stripped of
non-alphanumerics. -/
def tokenOf (raw : List Char) : List Char :=
  ((lowerOf raw).map alphaChar).filter isTokenChar

/-- Hydrogen-alpha rule of `normalizeFilter`. -/
def haCond (raw : List Char) : Bool :=
  tokenOf raw == "ha".data || tokenOf raw == "halpha".data ||
  jsIncludes (lowerOf raw) "hydrogen".data || hsaRegex (lowerOf raw)

/-- Oxygen-III rule of `normalizeFilter` (the `token === 'o-iii'` disjunct of
the source is kept even though a compact token never contains a dash). -/
def oiiiCond (raw : List Char) : Bool :=
  tokenOf raw == "oiii".data || tokenOf raw == "o3".data ||
  tokenOf raw == "o-iii".data ||
  jsIncludes (tokenOf raw) "oiii".data || jsIncludes (tokenOf raw) "o3".data ||
  jsIncludes (lowerOf raw) "oxygen".data

/-- Sulfur-II rule of `normalizeFilter`. -/
def siiCond (raw : List Char) : Bool :=
  tokenOf raw == "sii".data || tokenOf raw == "s2".data ||
  tokenOf raw == "s-ii".data ||
  jsIncludes (tokenOf raw) "sii".data || jsIncludes (tokenOf raw) "s2".data ||
  jsIncludes (lowerOf raw) "sulfur".data

/-- Luminance rule of `normalizeFilter`. -/
def lCond (raw : List Char) : Bool :=
  tokenOf raw == "l".data || tokenOf raw == "lum".data ||
  tokenOf raw == "luminance".data || jsIncludes (lowerOf raw) "luminance".data

/-- Red rule of `normalizeFilter`. -/
def rCond (raw : List Char) : Bool :=
  tokenOf raw == "r".data || jsIncludes (lowerOf raw) "red".data

/-- Green rule of `normalizeFilter`. -/
def gCond (raw : List Char) : Bool :=
  tokenOf raw == "g".data || jsIncludes (lowerOf raw) "green".data

/-- Blue rule of `normalizeFilter`. -/
def bCond (raw : List Char) : Bool :=
  tokenOf raw == "b".data || jsIncludes (lowerOf raw) "blue".data

/-- The ordered rule table of `normalizeFilter`, applied to the trimmed
input; falls back to the trimmed input itself. -/
def normBranches (raw : List Char) : List Char :=
  if haCond raw then "Ha".data
  else if oiiiCond raw then "OIII".data
  else if siiCond raw then "SII".data
  else if lCond raw then "L".data
  else if rCond raw then "R".data
  else if gCond raw then "G".data
  else if bCond raw then "B".data
  else raw

/-- `normalizeFilter` from `filters.ts`, on character lists. -/
def normalizeFilterL (name : List Char) : List Char :=
  if name = [] then "Unknown".data
  else if jsTrim name = [] then "Unknown".data
  else normBranches (jsTrim name)

/-- `normalizeFilter` from `filters.ts`. -/
def normalizeFilter (name : String) : String := ⟨normalizeFilterL name.data⟩

/-! ### Trim idempotence -/

theorem dropWhile_self {α : Type} (p : α → Bool) (l : List α) :
    (l.dropWhile p).dropWhile p = l.dropWhile p := by
  induction l with
  | nil => rfl
  | cons a t ih =>
      by_cases h : p a
      · simp [List.dropWhile_cons, h, ih]
      · simp [List.dropWhile_cons, h]

theorem dropWhile_length_le {α : Type} (p : α → Bool) (l : List α) :
    (l.dropWhile p).length ≤ l.length := by
  induction l with
  | nil => simp
  | cons a t ih =>
      by_cases h : p a
      · simp only [List.dropWhile_cons, h, if_pos]
        exact le_trans ih (Nat.le_succ _)
      · simp [List.dropWhile_cons, h]

theorem dropWhile_append_self {α : Type} (p : α → Bool) (l1 l2 : List α)
    (h : (l1 ++ l2).dropWhile p = l1 ++ l2) : l1.dropWhile p = l1 := by
  cases l1 with
  | nil => rfl
  | cons a t =>
      by_cases hp : p a
      · exfalso
        have hlen : ((a :: t ++ l2).dropWhile p).length ≤ (t ++ l2).length := by
          simpa [List.dropWhile_cons, hp] using dropWhile_length_le p (t ++ l2)
        rw [h] at hlen
        simp at hlen
      · simp [List.dropWhile_cons, hp]

theorem jsTrim_idem (l : List Char) : jsTrim (jsTrim l) = jsTrim l := by
  unfold jsTrim
  set p := isJsWhitespace
  set m := l.dropWhile p with hm
  set t2 := ((m.reverse.dropWhile p).reverse : List Char) with ht2
  have hrev : t2.reverse = m.reverse.dropWhile p := by
    rw [ht2, List.reverse_reverse]
  have hdm : m.dropWhile p = m := by rw [hm]; exact dropWhile_self p l
  -- t2 is a prefix of m, so (since m is left-trimmed) t2 is left-trimmed
  have hdt2 : t2.dropWhile p = t2 := by
    obtain ⟨u, hu⟩ : ∃ u, m.reverse = u ++ m.reverse.dropWhile p := by
      induction m.reverse with
      | nil => exact ⟨[], rfl⟩
      | cons a t ih =>
          by_cases hp : p a
          · obtain ⟨u, hu⟩ := ih
            exact ⟨a :: u, by simp [List.dropWhile_cons, hp]; exact hu⟩
          · exact ⟨[], by simp [List.dropWhile_cons, hp]⟩
    have hm2 : m = t2 ++ u.reverse := by
      have := congrArg List.reverse hu
      simpa [ht2] using this
    exact dropWhile_append_self p t2 u.reverse (by rw [← hm2]; exact hdm)
  have hdt2r : t2.reverse.dropWhile p = t2.reverse := by
    rw [hrev]
    exact dropWhile_self p m.reverse
  rw [hdt2, hdt2r, List.reverse_reverse]

/-! ### Idempotence of the normalizer -/

theorem normBranches_fixed_of_conds (raw : List Char)
    (hha : ¬ haCond raw = true) (ho : ¬ oiiiCond raw = true)
    (hs : ¬ siiCond raw = true) (hl : ¬ lCond raw = true)
    (hr : ¬ rCond raw = true) (hg : ¬ gCond raw = true)
    (hb : ¬ bCond raw = true) : normBranches raw = raw := by
  simp [normBranches, hha, ho, hs, hl, hr, hg, hb]

theorem normalizeFilterL_idem (name : List Char) :
    normalizeFilterL (normalizeFilterL name) = normalizeFilterL name := by
  have hUnk : normalizeFilterL "Unknown".data = "Unknown".data := by decide
  by_cases h1 : name = []
  · rw [show normalizeFilterL name = "Unknown".data by simp [normalizeFilterL, h1]]
    exact hUnk
  by_cases h2 : jsTrim name = []
  · rw [show normalizeFilterL name = "Unknown".data by simp [normalizeFilterL, h1, h2]]
    exact hUnk
  have hmain : normalizeFilterL name = normBranches (jsTrim name) := by
    simp [normalizeFilterL, h1, h2]
  by_cases hha : haCond (jsTrim name) = true
  · rw [hmain, show normBranches (jsTrim name) = "Ha".data by simp [normBranches, hha]]
    decide
  by_cases ho : oiiiCond (jsTrim name) = true
  · rw [hmain, show normBranches (jsTrim name) = "OIII".data by
      simp [normBranches, hha, ho]]
    decide
  by_cases hs : siiCond (jsTrim name) = true
  · rw [hmain, show normBranches (jsTrim name) = "SII".data by
      simp [normBranches, hha, ho, hs]]
    decide
  by_cases hl : lCond (jsTrim name) = true
  · rw [hmain, show normBranches (jsTrim name) = "L".data by
      simp [normBranches, hha, ho, hs, hl]]
    decide
  by_cases hr : rCond (jsTrim name) = true
  · rw [hmain, show normBranches (jsTrim name) = "R".data by
      simp [normBranches, hha, ho, hs, hl, hr]]
    decide
  by_cases hg : gCond (jsTrim name) = true
  · rw [hmain, show normBranches (jsTrim name) = "G".data by
      simp [normBranches, hha, ho, hs, hl, hr, hg]]
    decide
  by_cases hb : bCond (jsTrim name) = true
  · rw [hmain, show normBranches (jsTrim name) = "B".data by
      simp [normBranches, hha, ho, hs, hl, hr, hg, hb]]
    decide
  -- fallback branch: the trimmed input is returned and is a fixed point
  have hfix := normBranches_fixed_of_conds (jsTrim name) hha ho hs hl hr hg hb
  rw [hmain, hfix, normalizeFilterL, if_neg h2, jsTrim_idem name, if_neg h2, hfix]

/-- C4: `normalizeFilter` is idempotent on every string, and maps the empty
string to `"Unknown"`. -/
theorem normalizeFilter_idempotent (x : String) :
    normalizeFilter (normalizeFilter x) = normalizeFilter x ∧
    normalizeFilter "" = "Unknown" := by
  refine ⟨?_, by decide⟩
  show (⟨normalizeFilterL (normalizeFilterL x.data)⟩ : String) = ⟨normalizeFilterL x.data⟩
  rw [normalizeFilterL_idem]

/-! ### Frame data model (`library/types.ts`) -/

/-- `frameType: 'LIGHT' | 'DARK' | 'FLAT' | 'BIAS' | 'OTHER'`. -/
inductive FrameType where
  | LIGHT | DARK | FLAT | BIAS | OTHER
deriving DecidableEq

/-- A frame record as produced by the scan stream.  Fields that JavaScript
may leave `undefined` are `Option`s. -/
structure LightFrame where
  target : Option String
  filter : Option String
  exposure_s : Option ℚ
  date : Option String
  frameType : Option FrameType
  rejected : Option Bool
deriving DecidableEq

/-- `x || d` for a possibly-missing string: `undefined` and `''` are falsy. -/
def jsOrStr (o : Option String) (d : String) : String :=
  match o with
  | none => d
  | some s => if s = "" then d else s

/-- `x || 0` for a possibly-missing number (`undefined` is falsy; an actual
`0` also falls back to `0`, which is the same value). -/
def jsOrQ (o : Option ℚ) : ℚ :=
  match o with
  | none => 0
  | some x => x

/-- `f.target || 'Unknown'`. -/
def keyT (f : LightFrame) : String := jsOrStr f.target "Unknown"

/-- `f.filter || 'Unknown'`. -/
def keyF (f : LightFrame) : String := jsOrStr f.filter "Unknown"

/-- `f.exposure_s || 0`. -/
def expOf (f : LightFrame) : ℚ := jsOrQ f.exposure_s

/-! ### FrameAggregator (`library/analysis.ts`, unnamed parts 013/014) -/

/-- `filterAcceptedFrames`: drop rejected frames when the flag is set
(`!frame.rejected` keeps frames whose `rejected` is not `true`). -/
def filterAcceptedFrames (frames : List LightFrame)
    (applyRejectionFilter : Bool) : List LightFrame :=
  if applyRejectionFilter then
    frames.filter (fun f => !(f.rejected == some true))
  else frames

/-- One step of the `totalsByTarget` loop:
`out[t][filter] = (out[t][filter] || 0) + (f.exposure_s || 0)`.  The nested
record is modelled as a total function with a `0` default. -/
def addFrameTotal (acc : String → String → ℚ) (f : LightFrame) :
    String → String → ℚ :=
  fun t fl => if keyT f = t ∧ keyF f = fl then acc t fl + expOf f else acc t fl

/-- `totalsByTarget`: accumulated exposure seconds keyed by target and
filter. -/
def totalsByTarget (frames : List LightFrame)
    (applyRejectionFilter : Bool := false) : String → String → ℚ :=
  (filterAcceptedFrames frames applyRejectionFilter).foldl addFrameTotal
    (fun _ _ => 0)

/-- The frames that match a given target/filter key pair. -/
def matchingFrames (frames : List LightFrame) (t fl : String) :
    List LightFrame :=
  frames.filter (fun f => decide (keyT f = t ∧ keyF f = fl))

theorem foldl_addFrameTotal (l : List LightFrame)
    (acc : String → String → ℚ) (t fl : String) :
    (l.foldl addFrameTotal acc) t fl =
      acc t fl + ((matchingFrames l t fl).map expOf).sum := by
  induction l generalizing acc with
  | nil => simp [matchingFrames]
  | cons f rest ih =>
      rw [List.foldl_cons, ih]
      by_cases h : keyT f = t ∧ keyF f = fl
      · simp [matchingFrames, addFrameTotal, List.filter_cons, h,
          add_assoc, add_comm (expOf f)]
      · simp [matchingFrames, addFrameTotal, List.filter_cons, h]

/-- The aggregated total equals the plain sum over matching frames. -/
theorem totalsByTarget_eq_sum (frames : List LightFrame) (b : Bool)
    (t fl : String) :
    totalsByTarget frames b t fl =
      ((matchingFrames (filterAcceptedFrames frames b) t fl).map expOf).sum := by
  unfold totalsByTarget
  rw [foldl_addFrameTotal]
  simp

/-- A DARK frame with 100 s of exposure, the C3 counterexample input. -/
def darkFrame : LightFrame :=
  { target := some "M1", filter := some "Ha", exposure_s := some 100,
    date := none, frameType := some FrameType.DARK, rejected := none }

/-- C3 counterexample: `totalsByTarget` does not restrict to
`frameType = LIGHT` — a DARK frame's 100 s of exposure shows up in the
aggregated total, contradicting the claim that non-LIGHT frames contribute
nothing. -/
theorem totalsByTarget_dark_frame_cex :
    darkFrame.frameType = some FrameType.DARK ∧
    totalsByTarget [darkFrame] false "M1" "Ha" = 100 := by
  refine ⟨rfl, ?_⟩
  simp [totalsByTarget, filterAcceptedFrames, addFrameTotal, darkFrame,
    keyT, keyF, expOf, jsOrStr, jsOrQ]

/-- C3 (amended): `totalsByTarget` aggregates every frame it is given
regardless of `frameType` — each (target, filter) total is the exposure sum
over all matching frames (with rejected frames excluded when the flag is
set), and arbitrarily rewriting every frame's `frameType` leaves the output
unchanged.  (The restriction to LIGHT frames happens upstream of the
aggregator, in the scan collaborator.) -/
theorem totalsByTarget_frameType_oblivious (frames : List LightFrame)
    (b : Bool) (t fl : String) (g : LightFrame → Option FrameType) :
    totalsByTarget frames b t fl =
      ((matchingFrames (filterAcceptedFrames frames b) t fl).map expOf).sum ∧
    totalsByTarget (frames.map (fun f => { f with frameType := g f })) b t fl =
      totalsByTarget frames b t fl := by
  refine ⟨totalsByTarget_eq_sum frames b t fl, ?_⟩
  have hfil : filterAcceptedFrames (frames.map (fun f => { f with frameType := g f })) b =
      (filterAcceptedFrames frames b).map (fun f => { f with frameType := g f }) := by
    cases b with
    | false => simp [filterAcceptedFrames]
    | true =>
        simp only [filterAcceptedFrames, if_pos]
        rw [List.filter_map]
        rfl
  have hmap : ∀ (l : List LightFrame) (acc : String → String → ℚ),
      (l.map (fun f => { f with frameType := g f })).foldl addFrameTotal acc =
        l.foldl addFrameTotal acc := by
    intro l
    induction l with
    | nil => intro acc; rfl
    | cons f rest ih =>
        intro acc
        simp only [List.map_cons, List.foldl_cons]
        exact ih _
  unfold totalsByTarget
  rw [hfil, hmap]

/-- C10: the aggregator is total on frames with missing fields — every
frame is aggregated under its `(keyT, keyF)` pair (never skipped), where a
missing or empty target maps to the key "Unknown" and, independently, a
missing or empty filter maps to the key "Unknown"; a missing exposure value
contributes exactly `0` to the total. -/
theorem totalsByTarget_missing_fields (f : LightFrame)
    (frames : List LightFrame) :
    ((f.target = none ∨ f.target = some "") → keyT f = "Unknown") ∧
    ((f.filter = none ∨ f.filter = some "") → keyF f = "Unknown") ∧
    (f.exposure_s = none → expOf f = 0) ∧
    totalsByTarget (f :: frames) false (keyT f) (keyF f) =
      expOf f + totalsByTarget frames false (keyT f) (keyF f) := by
  refine ⟨?_, ?_, fun h => by simp [expOf, jsOrQ, h], ?_⟩
  · intro ht
    rcases ht with h | h <;> simp [keyT, jsOrStr, h]
  · intro hf
    rcases hf with h | h <;> simp [keyF, jsOrStr, h]
  · have e0 : ∀ (l : List LightFrame), filterAcceptedFrames l false = l := by
      intro l; simp [filterAcceptedFrames]
    unfold totalsByTarget
    rw [e0, e0, List.foldl_cons, foldl_addFrameTotal, foldl_addFrameTotal]
    simp [addFrameTotal]

/-- A frame with `target = undefined`, `filter = ''` and no exposure value. -/
def blankFrame : LightFrame :=
  { target := none, filter := some "", exposure_s := none,
    date := none, frameType := none, rejected := none }

/-- A frame with a present target but missing filter and exposure. -/
def noFilterFrame : LightFrame :=
  { target := some "M31", filter := none, exposure_s := none,
    date := none, frameType := none, rejected := none }

/-- Witness for C10: the missing-target case at `blankFrame`, and the
missing-filter, missing-exposure and never-skipped cases at
`noFilterFrame`. -/
theorem totalsByTarget_missing_fields_witness :
    keyT blankFrame = "Unknown" ∧
    keyF noFilterFrame = "Unknown" ∧
    expOf noFilterFrame = 0 ∧
    totalsByTarget [noFilterFrame] false (keyT noFilterFrame)
        (keyF noFilterFrame) =
      expOf noFilterFrame +
        totalsByTarget [] false (keyT noFilterFrame) (keyF noFilterFrame) :=
  ⟨(totalsByTarget_missing_fields blankFrame []).1 (Or.inl rfl),
   (totalsByTarget_missing_fields noFilterFrame []).2.1 (Or.inl rfl),
   (totalsByTarget_missing_fields noFilterFrame []).2.2.1 rfl,
   (totalsByTarget_missing_fields noFilterFrame []).2.2.2⟩

/-! ### Allocation engine (`src/astrosummary-ui/src/pages/RatioPlanner.tsx`) -/

/-- `Number(x.toFixed(2))`: round to a multiple of 1/100. -/
def round2 (x : ℚ) : ℚ := (round (x * 100) : ℤ) / 100

/-- The narrowband / broadband toggle of the planner. -/
inductive FilterMode where
  | narrowband | broadband
deriving DecidableEq

/-- `const narrow = ['Ha', 'OIII', 'SII']`. -/
def narrow : List String := ["Ha", "OIII", "SII"]

/-- `const broad = ['R', 'G', 'B', 'L']`. -/
def broad : List String := ["R", "G", "B", "L"]

/-- `x || 1.0`: a zero ratio input falls back to 1.0. -/
def jsOr1 (x : ℚ) : ℚ := if x = 0 then 1 else x

/-- `computeEqualGoal` from `analysis.ts`: equal weights for the seven
canonical filters, ignoring the frame list. -/
def computeEqualGoal (_frames : List LightFrame) : List (String × ℚ) :=
  [("Ha", 1), ("OIII", 1), ("SII", 1), ("R", 1), ("G", 1), ("B", 1), ("L", 1)]

/-- The `goal` memo of `RatioPlanner`: the explicit per-filter ratio inputs,
except that with no frames it falls back to `computeEqualGoal`. -/
def plannerGoal (frames : List LightFrame) (ha oiii sii r g b l : ℚ) :
    List (String × ℚ) :=
  if frames = [] then computeEqualGoal frames
  else
    [("Ha", jsOr1 ha), ("OIII", jsOr1 oiii), ("SII", jsOr1 sii),
     ("R", jsOr1 r), ("G", jsOr1 g), ("B", jsOr1 b), ("L", jsOr1 l)]

/-- `obj[k]` on an association-list record. -/
def lookupW (m : List (String × ℚ)) (k : String) : Option ℚ :=
  (m.find? (fun e => e.1 == k)).map Prod.snd

/-- `obj[k] || 0` on an association-list record. -/
def getQ (m : List (String × ℚ)) (k : String) : ℚ :=
  match m.find? (fun e => e.1 == k) with
  | some e => e.2
  | none => 0

/-- `normGoal`: the goal weights re-keyed through `normalizeFilter`, weights
collapsing onto the same canonical key being summed. -/
def normGoal (goal : List (String × ℚ)) (k : String) : ℚ :=
  ((goal.filter (fun e => normalizeFilter e.1 == k)).map Prod.snd).sum

/-- The keys of a record. -/
def keysOf (m : List (String × ℚ)) : List String := m.map Prod.fst

/-- `Object.keys({ ...current, ...goal })`: current's keys, then goal's keys
that are not already present. -/
def unionKeys (current goal : List (String × ℚ)) : List String :=
  keysOf current ++ (keysOf goal).filter (fun k => !(keysOf current).contains k)

/-- Insert a string into an ascending list. -/
def insertSorted (s : String) : List String → List String
  | [] => [s]
  | a :: rest => if s ≤ a then s :: a :: rest else a :: insertSorted s rest

/-- JavaScript `Array.prototype.sort()` on strings: ascending code-unit
order (insertion sort). -/
def sortStr : List String → List String
  | [] => []
  | a :: rest => insertSorted a (sortStr rest)

/-- The displayed filter set: the sorted union keys restricted to the active
band. -/
def displayedKeys (current goal : List (String × ℚ)) (mode : FilterMode) :
    List String :=
  (sortStr (unionKeys current goal)).filter (fun k =>
    (narrow.contains k && mode == FilterMode.narrowband) ||
    (broad.contains k && mode == FilterMode.broadband))

/-- `sumW`: goal weights summed over the displayed filters only. -/
def sumW (current goal : List (String × ℚ)) (mode : FilterMode) : ℚ :=
  ((displayedKeys current goal mode).map (normGoal goal)).sum

/-- `totalSeconds`: the desired duration in seconds when present and
positive, otherwise the sum of currently captured seconds. -/
def totalSeconds (current : List (String × ℚ)) (desiredHours : Option ℚ) : ℚ :=
  match desiredHours with
  | some dh => if 0 < dh then dh * 3600 else (current.map Prod.snd).sum
  | none => (current.map Prod.snd).sum

/-- `targetSec` for one filter: weight share of `totalSeconds` when the
displayed weights have positive sum, equal split when the sum is zero, and
`0` for an empty displayed set. -/
def targetSec (current goal : List (String × ℚ)) (dh : Option ℚ)
    (mode : FilterMode) (k : String) : ℚ :=
  if 0 < sumW current goal mode then
    normGoal goal k / sumW current goal mode * totalSeconds current dh
  else if 0 < (displayedKeys current goal mode).length then
    totalSeconds current dh / ((displayedKeys current goal mode).length : ℚ)
  else 0

/-- `capturedH` (unrounded): captured seconds over 3600. -/
def rawCapturedH (current : List (String × ℚ)) (k : String) : ℚ :=
  getQ current k / 3600

/-- `targetH` (unrounded): target seconds over 3600. -/
def rawTargetH (current goal : List (String × ℚ)) (dh : Option ℚ)
    (mode : FilterMode) (k : String) : ℚ :=
  targetSec current goal dh mode k / 3600

/-- One chart row of the planner, all hour fields rounded to 2 decimals. -/
structure AllocRow where
  filter : String
  captured : ℚ
  capturedVis : ℚ
  needed : ℚ
  overshoot : ℚ
  target : ℚ
deriving DecidableEq

/-- The row built for one displayed filter. -/
def rowOf (current goal : List (String × ℚ)) (dh : Option ℚ)
    (mode : FilterMode) (k : String) : AllocRow :=
  { filter := k
    captured := round2 (rawCapturedH current k)
    capturedVis := round2 (min (round2 (rawCapturedH current k))
      (rawTargetH current goal dh mode k))
    needed := round2 (max 0
      (rawTargetH current goal dh mode k - rawCapturedH current k))
    overshoot := round2 (max 0
      (rawCapturedH current k - rawTargetH current goal dh mode k))
    target := round2 (rawTargetH current goal dh mode k) }

/-- The `rows` array of the planner: one row per displayed filter, with
all-zero rows suppressed and the (redundant) second band filter applied. -/
def plannerRows (current goal : List (String × ℚ)) (dh : Option ℚ)
    (mode : FilterMode) : List AllocRow :=
  (((displayedKeys current goal mode).map (rowOf current goal dh mode)).filter
      (fun r => decide (0 < r.captured ∨ 0 < r.needed ∨ 0 < r.overshoot))).filter
    (fun r =>
      (narrow.contains r.filter && mode == FilterMode.narrowband) ||
      (broad.contains r.filter && mode == FilterMode.broadband))

/-! ### Rounding helpers -/

theorem round2_zero : round2 0 = 0 := by
  simp [round2]

theorem round2_nonneg (x : ℚ) (hx : 0 ≤ x) : 0 ≤ round2 x := by
  unfold round2
  have h0 : (0 : ℤ) ≤ round (x * 100) := by
    rw [round_eq]
    refine Int.le_floor.mpr ?_
    push_cast
    linarith
  have : (0 : ℚ) ≤ ((round (x * 100) : ℤ) : ℚ) := by exact_mod_cast h0
  positivity

theorem round2_eval (x : ℚ) (n : ℤ) (h1 : (n : ℚ) ≤ x * 100 + 1 / 2)
    (h2 : x * 100 + 1 / 2 < n + 1) : round2 x = (n : ℚ) / 100 := by
  unfold round2
  rw [round_eq, show (⌊x * 100 + 1 / 2⌋ : ℤ) = n from Int.floor_eq_iff.mpr ⟨h1, by exact_mod_cast h2⟩]

theorem sum_map_const_q {α : Type} (l : List α) (c : ℚ) :
    (l.map (fun _ => c)).sum = (l.length : ℚ) * c := by
  induction l with
  | nil => simp
  | cons a t ih => simp [ih]; ring

/-- C7: when the desired total duration is absent or not positive, the
engine substitutes the sum of currently captured seconds for
`totalSeconds`; a positive desired duration is converted to seconds.  No
error is raised in either case. -/
theorem totalSeconds_fallback (current : List (String × ℚ)) (x : ℚ) :
    totalSeconds current none = (current.map Prod.snd).sum ∧
    (x ≤ 0 → totalSeconds current (some x) = (current.map Prod.snd).sum) ∧
    (0 < x → totalSeconds current (some x) = x * 3600) := by
  refine ⟨rfl, fun hx => ?_, fun hx => ?_⟩
  · simp [totalSeconds, not_lt.mpr hx]
  · simp [totalSeconds, hx]

/-- Witness for C7 at a concrete captured map and desired durations −2 and 2. -/
theorem totalSeconds_fallback_witness :
    totalSeconds [("Ha", 600)] (some (-2)) = 600 ∧
    totalSeconds [("Ha", 600)] (some 2) = 7200 := by
  constructor
  · rw [(totalSeconds_fallback [("Ha", 600)] (-2)).2.1 (by norm_num)]
    simp
  · rw [(totalSeconds_fallback [("Ha", 600)] 2).2.2 (by norm_num)]
    norm_num

/-! ### C2: weight-share targets sum to the total -/

/-- C2: when the displayed weight sum is positive, each displayed filter's
target seconds equals its weight share `(weight / sumW) * totalSeconds`,
and the target seconds over the displayed set sum exactly to
`totalSeconds`. -/
theorem targetSeconds_share_and_sum (current goal : List (String × ℚ))
    (dh : Option ℚ) (mode : FilterMode)
    (hw : 0 < sumW current goal mode) :
    (∀ k ∈ displayedKeys current goal mode,
        targetSec current goal dh mode k =
          normGoal goal k / sumW current goal mode * totalSeconds current dh) ∧
    ((displayedKeys current goal mode).map
        (targetSec current goal dh mode)).sum = totalSeconds current dh := by
  have hne : sumW current goal mode ≠ 0 := ne_of_gt hw
  constructor
  · intro k _
    rw [targetSec, if_pos hw]
  · have hmap : (displayedKeys current goal mode).map
        (targetSec current goal dh mode) =
        (displayedKeys current goal mode).map (fun k =>
          normGoal goal k *
            (totalSeconds current dh / sumW current goal mode)) := by
      refine List.map_congr_left (fun k _ => ?_)
      rw [targetSec, if_pos hw, div_mul_eq_mul_div, mul_div_assoc]
    rw [hmap, List.sum_map_mul_right,
      show ((displayedKeys current goal mode).map (normGoal goal)).sum =
        sumW current goal mode from rfl,
      mul_comm, div_mul_cancel₀ _ hne]

/-- The concrete captured totals used for witnesses / counterexamples:
3614.4 s of Ha. -/
def cexCurrent : List (String × ℚ) := [("Ha", 18072 / 5)]

/-- The concrete goal-weight record used for witnesses / counterexamples. -/
def cexGoal : List (String × ℚ) := [("Ha", 1)]

theorem cex_displayed :
    displayedKeys cexCurrent cexGoal FilterMode.narrowband = ["Ha"] := by
  decide

theorem cex_normGoal : normGoal cexGoal "Ha" = 1 := by
  simp [normGoal, cexGoal, show normalizeFilter "Ha" = "Ha" from by decide]

theorem cex_sumW : sumW cexCurrent cexGoal FilterMode.narrowband = 1 := by
  rw [sumW, cex_displayed]
  simp [cex_normGoal]

/-- Witness for C2 at the concrete inputs `cexCurrent`, `cexGoal`. -/
theorem targetSeconds_share_and_sum_witness :
    0 < sumW cexCurrent cexGoal FilterMode.narrowband ∧
    ((displayedKeys cexCurrent cexGoal FilterMode.narrowband).map
        (targetSec cexCurrent cexGoal (some 2) FilterMode.narrowband)).sum =
      totalSeconds cexCurrent (some 2) := by
  have hw : 0 < sumW cexCurrent cexGoal FilterMode.narrowband := by
    rw [cex_sumW]
    norm_num
  exact ⟨hw, (targetSeconds_share_and_sum cexCurrent cexGoal (some 2)
    FilterMode.narrowband hw).2⟩

/-! ### C6: zero displayed weight sum splits the total equally -/

/-- C6: when the displayed weight sum is zero, every displayed filter
receives `totalSeconds / |displayed set|` (so the displayed targets still
sum to `totalSeconds` when the set is nonempty) and every filter receives
`0` when the displayed set is empty; no error is raised. -/
theorem sumW_zero_equal_split (current goal : List (String × ℚ))
    (dh : Option ℚ) (mode : FilterMode)
    (hw : sumW current goal mode = 0) :
    (∀ k ∈ displayedKeys current goal mode,
        targetSec current goal dh mode k =
          totalSeconds current dh /
            ((displayedKeys current goal mode).length : ℚ)) ∧
    (displayedKeys current goal mode ≠ [] →
        ((displayedKeys current goal mode).map
          (targetSec current goal dh mode)).sum = totalSeconds current dh) ∧
    (displayedKeys current goal mode = [] →
        ∀ k, targetSec current goal dh mode k = 0) := by
  have hnlt : ¬ 0 < sumW current goal mode := by
    rw [hw]
    exact lt_irrefl 0
  refine ⟨?_, ?_, ?_⟩
  · intro k hk
    have hlen : 0 < (displayedKeys current goal mode).length :=
      List.length_pos.mpr (List.ne_nil_of_mem hk)
    rw [targetSec, if_neg hnlt, if_pos hlen]
  · intro hne
    have hlen : 0 < (displayedKeys current goal mode).length :=
      List.length_pos.mpr hne
    have hlen' : ((displayedKeys current goal mode).length : ℚ) ≠ 0 := by
      exact_mod_cast Nat.pos_iff_ne_zero.mp hlen
    have hmap : (displayedKeys current goal mode).map
        (targetSec current goal dh mode) =
        (displayedKeys current goal mode).map (fun _ =>
          totalSeconds current dh /
            ((displayedKeys current goal mode).length : ℚ)) :=
      List.map_congr_left (fun k _ => by rw [targetSec, if_neg hnlt, if_pos hlen])
    rw [hmap, sum_map_const_q, mul_comm, div_mul_cancel₀ _ hlen']
  · intro hemp k
    rw [targetSec, if_neg hnlt, hemp]
    simp

/-- An all-zero goal-weight record. -/
def zeroGoal : List (String × ℚ) := [("Ha", 0)]

theorem zeroGoal_displayed :
    displayedKeys [] zeroGoal FilterMode.narrowband = ["Ha"] := by
  decide

theorem zeroGoal_sumW : sumW [] zeroGoal FilterMode.narrowband = 0 := by
  rw [sumW, zeroGoal_displayed]
  simp [normGoal, zeroGoal, show normalizeFilter "Ha" = "Ha" from by decide]

/-- Witness for C6 at an all-zero weight record with one displayed filter. -/
theorem sumW_zero_equal_split_witness :
    sumW [] zeroGoal FilterMode.narrowband = 0 ∧
    ((displayedKeys [] zeroGoal FilterMode.narrowband).map
        (targetSec [] zeroGoal (some 1) FilterMode.narrowband)).sum =
      totalSeconds [] (some 1) := by
  refine ⟨zeroGoal_sumW, ?_⟩
  exact (sumW_zero_equal_split [] zeroGoal (some 1) FilterMode.narrowband
    zeroGoal_sumW).2.1 (by rw [zeroGoal_displayed]; simp)

/-! ### C5: equal-weight fallback -/

/-- C5: with zero frames the planner goal is the equal-weight fallback:
weight 1 at exactly the seven canonical filters and no other key. -/
theorem plannerGoal_equal_fallback (ha oiii sii r g b l : ℚ) (k : String) :
    plannerGoal [] ha oiii sii r g b l = computeEqualGoal [] ∧
    lookupW (computeEqualGoal []) k =
      (if k ∈ (["Ha", "OIII", "SII", "R", "G", "B", "L"] : List String)
        then some 1 else none) := by
  refine ⟨by simp [plannerGoal], ?_⟩
  by_cases h1 : k = "Ha"
  · subst h1; decide
  by_cases h2 : k = "OIII"
  · subst h2; decide
  by_cases h3 : k = "SII"
  · subst h3; decide
  by_cases h4 : k = "R"
  · subst h4; decide
  by_cases h5 : k = "G"
  · subst h5; decide
  by_cases h6 : k = "B"
  · subst h6; decide
  by_cases h7 : k = "L"
  · subst h7; decide
  have hm : k ∉ (["Ha", "OIII", "SII", "R", "G", "B", "L"] : List String) := by
    simp [h1, h2, h3, h4, h5, h6, h7]
  rw [if_neg hm]
  simp [lookupW, computeEqualGoal, List.find?,
    beq_eq_false_iff_ne.mpr (Ne.symm h1), beq_eq_false_iff_ne.mpr (Ne.symm h2),
    beq_eq_false_iff_ne.mpr (Ne.symm h3), beq_eq_false_iff_ne.mpr (Ne.symm h4),
    beq_eq_false_iff_ne.mpr (Ne.symm h5), beq_eq_false_iff_ne.mpr (Ne.symm h6),
    beq_eq_false_iff_ne.mpr (Ne.symm h7)]

/-! ### C1: row invariants and the rounding counterexample -/

theorem min_round2_max_zero (a b : ℚ) :
    min (round2 (max 0 (a - b))) (round2 (max 0 (b - a))) = 0 := by
  rcases le_total a b with h | h
  · have h1 : max 0 (a - b) = 0 := max_eq_left (by linarith)
    rw [h1, round2_zero]
    exact min_eq_left (round2_nonneg _ (le_max_left 0 _))
  · have h1 : max 0 (b - a) = 0 := max_eq_left (by linarith)
    rw [h1, round2_zero]
    exact min_eq_right (round2_nonneg _ (le_max_left 0 _))

/-- C1 (amended): for every produced row, `neededHours` and `overshootHours`
are the 2-decimal roundings of `max(0, targetH − capturedH)` and
`max(0, capturedH − targetH)` taken on the unrounded hour values; the
reconciliation `capturedH − targetH = overshoot − needed` holds exactly on
those unrounded values, and `min(neededHours, overshootHours) = 0` holds
for every row the planner outputs.  (After the per-field rounding the
stored identity `neededHours = max(0, targetHours − capturedHours)` can
fail; see the counterexample.) -/
theorem allocationRow_reconciliation (current goal : List (String × ℚ))
    (dh : Option ℚ) (mode : FilterMode) (k : String) :
    (rowOf current goal dh mode k).needed =
      round2 (max 0 (rawTargetH current goal dh mode k - rawCapturedH current k)) ∧
    (rowOf current goal dh mode k).overshoot =
      round2 (max 0 (rawCapturedH current k - rawTargetH current goal dh mode k)) ∧
    min (rowOf current goal dh mode k).needed
      (rowOf current goal dh mode k).overshoot = 0 ∧
    rawCapturedH current k - rawTargetH current goal dh mode k =
      max 0 (rawCapturedH current k - rawTargetH current goal dh mode k) -
      max 0 (rawTargetH current goal dh mode k - rawCapturedH current k) ∧
    ∀ r ∈ plannerRows current goal dh mode, min r.needed r.overshoot = 0 := by
  refine ⟨rfl, rfl, ?_, ?_, ?_⟩
  · exact min_round2_max_zero (rawTargetH current goal dh mode k)
      (rawCapturedH current k)
  · rcases le_total (rawCapturedH current k)
      (rawTargetH current goal dh mode k) with h | h
    · rw [max_eq_left (by linarith), max_eq_right (by linarith)]
      ring
    · rw [max_eq_right (by linarith), max_eq_left (by linarith)]
      ring
  · intro r hr
    have hr1 := List.mem_of_mem_filter hr
    have hr2 := List.mem_of_mem_filter hr1
    obtain ⟨k2, _, rfl⟩ := List.mem_map.mp hr2
    exact min_round2_max_zero (rawTargetH current goal dh mode k2)
      (rawCapturedH current k2)

/-- Witness for C1 (amended) at the concrete inputs `cexCurrent`, `cexGoal`. -/
theorem allocationRow_reconciliation_witness :
    min (rowOf cexCurrent cexGoal (some 2) FilterMode.narrowband "Ha").needed
      (rowOf cexCurrent cexGoal (some 2) FilterMode.narrowband "Ha").overshoot
      = 0 :=
  (allocationRow_reconciliation cexCurrent cexGoal (some 2)
    FilterMode.narrowband "Ha").2.2.1

/-- C1 counterexample: with 3614.4 s of Ha captured (capturedHours = 1.004)
and a desired total of 1.008 h, the planner outputs the single row
captured = 1.00, target = 1.01, needed = 0, overshoot = 0 — so the
stored-field identity `neededHours = max(0, targetHours − capturedHours)`
fails (0 ≠ 0.01), because each field is rounded separately. -/
theorem allocationRow_rounding_cex :
    plannerRows cexCurrent cexGoal (some (126 / 125)) FilterMode.narrowband =
      [{ filter := "Ha", captured := 1, capturedVis := 1, needed := 0,
         overshoot := 0, target := 101 / 100 }] ∧
    ¬ ((0 : ℚ) = max 0 (101 / 100 - 1)) := by
  have hcap : rawCapturedH cexCurrent "Ha" = 251 / 250 := by
    simp [rawCapturedH, getQ, cexCurrent, List.find?]
    norm_num
  have hts : totalSeconds cexCurrent (some (126 / 125)) = 18144 / 5 := by
    show (if 0 < (126 / 125 : ℚ) then (126 / 125 : ℚ) * 3600
      else (cexCurrent.map Prod.snd).sum) = 18144 / 5
    rw [if_pos (by norm_num)]
    norm_num
  have htgt : targetSec cexCurrent cexGoal (some (126 / 125))
      FilterMode.narrowband "Ha" = 18144 / 5 := by
    rw [targetSec, if_pos (by rw [cex_sumW]; norm_num), cex_sumW,
      cex_normGoal, hts]
    norm_num
  have htH : rawTargetH cexCurrent cexGoal (some (126 / 125))
      FilterMode.narrowband "Ha" = 126 / 125 := by
    rw [rawTargetH, htgt]
    norm_num
  have hr1 : round2 (251 / 250) = 1 := by
    rw [round2_eval (251 / 250) 100 (by norm_num) (by norm_num)]
    norm_num
  have hr2 : round2 (126 / 125) = 101 / 100 := by
    rw [round2_eval (126 / 125) 101 (by norm_num) (by norm_num)]
    norm_num
  have hneed : round2 (max 0 ((126 : ℚ) / 125 - 251 / 250)) = 0 := by
    have hx : (126 : ℚ) / 125 - 251 / 250 = 1 / 250 := by norm_num
    rw [hx, max_eq_right (by norm_num : (0 : ℚ) ≤ 1 / 250),
      round2_eval (1 / 250) 0 (by norm_num) (by norm_num)]
    norm_num
  have hover : round2 (max 0 ((251 : ℚ) / 250 - 126 / 125)) = 0 := by
    have hx : (251 : ℚ) / 250 - 126 / 125 = -(1 / 250) := by norm_num
    rw [hx, max_eq_left (by norm_num), round2_zero]
  have hvis : round2 (min (1 : ℚ) (126 / 125)) = 1 := by
    rw [min_eq_left (by norm_num), round2_eval 1 100 (by norm_num) (by norm_num)]
    norm_num
  have hrow : rowOf cexCurrent cexGoal (some (126 / 125))
      FilterMode.narrowband "Ha" =
      { filter := "Ha", captured := 1, capturedVis := 1, needed := 0,
        overshoot := 0, target := 101 / 100 } := by
    rw [rowOf, hcap, htH, hr1, hneed, hover, hr2, hvis]
  constructor
  · unfold plannerRows
    rw [cex_displayed]
    simp [hrow, narrow, broad]
  · rw [show (101 : ℚ) / 100 - 1 = 1 / 100 by norm_num,
      max_eq_right (by norm_num : (0 : ℚ) ≤ 1 / 100)]
    norm_num

/-! ### Frame ingestion (`library/scan.ts` + `context/AppContext.tsx`) -/

/-- Rejection metadata carried by the `done` message (the opaque
`quality_data` record is omitted; nothing in the embedded frame path reads
it). -/
structure RejectionData where
  rejected_frames : List String
  rejection_logs : List String
  rejected_count : Nat
deriving DecidableEq

/-- One newline-delimited message of the scan stream; `malformed` stands
for a line whose JSON parse failed (ignored by the reader loop). -/
inductive ScanMsg where
  | progress (files_scanned files_matched : Nat) (total_files : Option Nat)
  | frame (f : LightFrame) (files_scanned files_matched total_files : Option Nat)
  | done (files_scanned files_matched : Nat) (rejection_data : Option RejectionData)
  | malformed
deriving DecidableEq

/-- How the stream ends when no `done` message was seen: normal end of
stream, or abnormal termination (an error thrown mid-scan). -/
inductive StreamEnd where
  | ok | error
deriving DecidableEq

/-- The observable outcome of `scanFrames`: the frame list of the resolved
promise, and the frames that were delivered to the `onFrame` callback. -/
structure ScanResult where
  returned : List LightFrame
  live : List LightFrame
deriving DecidableEq

/-- The reader loop of `scanFrames`: a `frame` message is delivered to
`onFrame` and pushed; a `done` message returns the accumulated frames
early; a normal end of stream returns the accumulated frames; an abnormal
termination is caught and returns an EMPTY `frames` array (the `onFrame`
deliveries made before the failure are not undone). -/
def scanLoop (thr : List LightFrame) :
    List ScanMsg → StreamEnd → ScanResult
  | [], StreamEnd.ok => ⟨thr, thr⟩
  | [], StreamEnd.error => ⟨[], thr⟩
  | ScanMsg.done _ _ _ :: _, _ => ⟨thr, thr⟩
  | ScanMsg.frame f _ _ _ :: rest, e => scanLoop (thr ++ [f]) rest e
  | ScanMsg.progress _ _ _ :: rest, e => scanLoop thr rest e
  | ScanMsg.malformed :: rest, e => scanLoop thr rest e

/-- `scanFrames` over a materialised message stream. -/
def scanFrames (msgs : List ScanMsg) (e : StreamEnd) : ScanResult :=
  scanLoop [] msgs e

/-- The per-frame normalisation applied by `AppContext.onScan` both to live
frames and to the final batch. -/
def normalizeFrame (f : LightFrame) : LightFrame :=
  { f with
    filter := some (normalizeFilter (match f.filter with
      | some s => s
      | none => "")),
    exposure_s := some (match f.exposure_s with
      | some x => x
      | none => 0),
    frameType := some (match f.frameType with
      | some t => t
      | none => FrameType.LIGHT) }

/-- The frames state of `AppContext.onScan` after a scan: live frames are
normalised and appended as they arrive; the returned batch (normalised) is
used only when no live frame was delivered. -/
def onScanFrames (msgs : List ScanMsg) (e : StreamEnd) : List LightFrame :=
  let res := scanFrames msgs e
  let live := res.live.map normalizeFrame
  let normalized := res.returned.map normalizeFrame
  if live = [] then normalized else live

/-- The frames carried by `frame` messages before the first `done`. -/
def receivedFrames : List ScanMsg → List LightFrame
  | [] => []
  | ScanMsg.done _ _ _ :: _ => []
  | ScanMsg.frame f _ _ _ :: rest => f :: receivedFrames rest
  | ScanMsg.progress _ _ _ :: rest => receivedFrames rest
  | ScanMsg.malformed :: rest => receivedFrames rest

theorem scanLoop_live (msgs : List ScanMsg) : ∀ (acc : List LightFrame)
    (e : StreamEnd), (scanLoop acc msgs e).live = acc ++ receivedFrames msgs := by
  induction msgs with
  | nil =>
      intro acc e
      cases e <;> simp [scanLoop, receivedFrames]
  | cons m rest ih =>
      intro acc e
      cases m with
      | done a b c => simp [scanLoop, receivedFrames]
      | frame f a b c => simp [scanLoop, receivedFrames, ih]
      | progress a b c => simp [scanLoop, receivedFrames, ih]
      | malformed => simp [scanLoop, receivedFrames, ih]

theorem scanLoop_returned_error (msgs : List ScanMsg) :
    ∀ (acc : List LightFrame),
    (scanLoop acc msgs StreamEnd.error).returned = [] ∨
    (scanLoop acc msgs StreamEnd.error).returned =
      acc ++ receivedFrames msgs := by
  induction msgs with
  | nil => intro acc; left; simp [scanLoop]
  | cons m rest ih =>
      intro acc
      cases m with
      | done a b c => right; simp [scanLoop, receivedFrames]
      | frame f a b c =>
          rcases ih (acc ++ [f]) with h | h
          · left; simpa [scanLoop] using h
          · right; simp [scanLoop, receivedFrames]; simpa using h
      | progress a b c =>
          rcases ih acc with h | h
          · left; simpa [scanLoop] using h
          · right; simp [scanLoop, receivedFrames]; exact h
      | malformed =>
          rcases ih acc with h | h
          · left; simpa [scanLoop] using h
          · right; simp [scanLoop, receivedFrames]; exact h

/-- C8: when the stream terminates abnormally mid-scan, the ingestion path
returns a value rather than throwing, and the application's frame state is
exactly the (normalised) frames received before the failure — nothing
already received is discarded, and downstream computation proceeds over
that partial set. -/
theorem scan_error_retains_frames (msgs : List ScanMsg) :
    onScanFrames msgs StreamEnd.error =
      (receivedFrames msgs).map normalizeFrame := by
  unfold onScanFrames scanFrames
  have hl : (scanLoop [] msgs StreamEnd.error).live = receivedFrames msgs := by
    simpa using scanLoop_live msgs [] StreamEnd.error
  rcases scanLoop_returned_error msgs [] with hr | hr
  · by_cases h : receivedFrames msgs = []
    · simp [hl, hr, h]
    · simp [hl, hr, h]
  · simp only [List.nil_append] at hr
    by_cases h : receivedFrames msgs = []
    · simp [hl, hr, h]
    · simp [hl, hr, h]

/-! ### BurstDetector (spec-modelled) -/

/-- Modelled from the spec: a guiding-error sample (timestamp in seconds,
RMS value).  The BurstDetector runs in the backend service, which is not
among the embedded frontend sources; the frontend only renders its output. -/
structure GuidingSample where
  ts : ℚ
  rms : ℚ
deriving DecidableEq

/-- Modelled from the spec (§3 Burst, §4.6): a burst is a maximal run of
qualifying samples (RMS at or above the threshold); a qualifying sample
extends the current run when it lies within the merge gap of the run's last
qualifying sample and otherwise starts a new run; sub-threshold samples are
skipped.  `cur` holds the current run, most recent sample first. -/
def burstRunsAux (thr gap : ℚ) (cur : List GuidingSample) :
    List GuidingSample → List (List GuidingSample)
  | [] => if cur = [] then [] else [cur.reverse]
  | s :: rest =>
      if thr ≤ s.rms then
        match cur with
        | [] => burstRunsAux thr gap [s] rest
        | c :: cs =>
            if s.ts - c.ts ≤ gap then burstRunsAux thr gap (s :: c :: cs) rest
            else (c :: cs).reverse :: burstRunsAux thr gap [s] rest
      else burstRunsAux thr gap cur rest

/-- Modelled from the spec: the burst runs of an ordered sample sequence. -/
def burstRuns (thr gap : ℚ) (samples : List GuidingSample) :
    List (List GuidingSample) :=
  burstRunsAux thr gap [] samples

/-- Timestamp of the first sample of a run (0 for an empty run; runs are
never empty). -/
def startOf : List GuidingSample → ℚ
  | [] => 0
  | s :: _ => s.ts

/-- Timestamp of the last sample of a run. -/
def endOf (l : List GuidingSample) : ℚ := startOf l.reverse

/-- Maximum RMS over a run. -/
def peakOf : List GuidingSample → ℚ
  | [] => 0
  | s :: rest => (rest.map GuidingSample.rms).foldl max s.rms

/-- Mean RMS over a run. -/
def avgOf (l : List GuidingSample) : ℚ :=
  (l.map GuidingSample.rms).sum / (l.length : ℚ)

/-- Modelled from the spec: a detected burst (trigger-correlation tags are
outside the claims considered here). -/
structure Burst where
  startTs : ℚ
  endTs : ℚ
  durationSec : ℚ
  eventCount : Nat
  peakRms : ℚ
  avgRms : ℚ
  samples : List GuidingSample
deriving DecidableEq

/-- Build the burst record of one run. -/
def mkBurst (run : List GuidingSample) : Burst :=
  { startTs := startOf run, endTs := endOf run,
    durationSec := endOf run - startOf run, eventCount := run.length,
    peakRms := peakOf run, avgRms := avgOf run, samples := run }

/-- Modelled from the spec: the ordered bursts of a sample sequence. -/
def detectBursts (thr gap : ℚ) (samples : List GuidingSample) : List Burst :=
  (burstRuns thr gap samples).map mkBurst

theorem burstRunsAux_sublist (thr gap : ℚ) :
    ∀ (rest cur : List GuidingSample),
    ∀ r ∈ burstRunsAux thr gap cur rest, r.Sublist (cur.reverse ++ rest) := by
  intro rest
  induction rest with
  | nil =>
      intro cur r hr
      by_cases hc : cur = []
      · simp [burstRunsAux, hc] at hr
      · simp only [burstRunsAux, if_neg hc, List.mem_singleton] at hr
        subst hr
        simp
  | cons s rest ih =>
      intro cur r hr
      by_cases hq : thr ≤ s.rms
      · cases cur with
        | nil =>
            simp only [burstRunsAux, if_pos hq] at hr
            simpa using ih [s] r hr
        | cons c cs =>
            by_cases hgap2 : s.ts - c.ts ≤ gap
            · simp only [burstRunsAux, if_pos hq, if_pos hgap2] at hr
              have h2 := ih (s :: c :: cs) r hr
              simpa [List.append_assoc] using h2
            · simp only [burstRunsAux, if_pos hq, if_neg hgap2,
                List.mem_cons] at hr
              rcases hr with rfl | hr
              · exact List.sublist_append_left _ _
              · have h2 : r.Sublist (s :: rest) := by simpa using ih [s] r hr
                exact h2.trans (List.sublist_append_right _ _)
      · simp only [burstRunsAux, if_neg hq] at hr
        exact (ih cur r hr).trans
          ((List.sublist_cons_self s rest).append_left cur.reverse)

theorem burstRunsAux_ne_nil (thr gap : ℚ) :
    ∀ (rest cur : List GuidingSample),
    ∀ r ∈ burstRunsAux thr gap cur rest, r ≠ [] := by
  intro rest
  induction rest with
  | nil =>
      intro cur r hr
      by_cases hc : cur = []
      · simp [burstRunsAux, hc] at hr
      · simp only [burstRunsAux, if_neg hc, List.mem_singleton] at hr
        subst hr
        simpa using hc
  | cons s rest ih =>
      intro cur r hr
      by_cases hq : thr ≤ s.rms
      · cases cur with
        | nil =>
            simp only [burstRunsAux, if_pos hq] at hr
            exact ih [s] r hr
        | cons c cs =>
            by_cases hgap2 : s.ts - c.ts ≤ gap
            · simp only [burstRunsAux, if_pos hq, if_pos hgap2] at hr
              exact ih _ r hr
            · simp only [burstRunsAux, if_pos hq, if_neg hgap2,
                List.mem_cons] at hr
              rcases hr with rfl | hr
              · simp
              · exact ih [s] r hr
      · simp only [burstRunsAux, if_neg hq] at hr
        exact ih cur r hr

theorem burstRunsAux_qualify (thr gap : ℚ) :
    ∀ (rest cur : List GuidingSample), (∀ t ∈ cur, thr ≤ t.rms) →
    ∀ r ∈ burstRunsAux thr gap cur rest, ∀ t ∈ r, thr ≤ t.rms := by
  intro rest
  induction rest with
  | nil =>
      intro cur hq r hr t ht
      by_cases hc : cur = []
      · simp [burstRunsAux, hc] at hr
      · simp only [burstRunsAux, if_neg hc, List.mem_singleton] at hr
        subst hr
        exact hq t (List.mem_reverse.mp ht)
  | cons s rest ih =>
      intro cur hq r hr t ht
      by_cases hqs : thr ≤ s.rms
      · cases cur with
        | nil =>
            simp only [burstRunsAux, if_pos hqs] at hr
            refine ih [s] ?_ r hr t ht
            intro u hu
            rw [List.mem_singleton] at hu
            subst hu
            exact hqs
        | cons c cs =>
            by_cases hgap2 : s.ts - c.ts ≤ gap
            · simp only [burstRunsAux, if_pos hqs, if_pos hgap2] at hr
              refine ih (s :: c :: cs) ?_ r hr t ht
              intro u hu
              rcases List.mem_cons.mp hu with rfl | hu
              · exact hqs
              · exact hq u hu
            · simp only [burstRunsAux, if_pos hqs, if_neg hgap2,
                List.mem_cons] at hr
              rcases hr with rfl | hr
              · exact hq t (List.mem_reverse.mp ht)
              · refine ih [s] ?_ r hr t ht
                intro u hu
                rw [List.mem_singleton] at hu
                subst hu
                exact hqs
      · simp only [burstRunsAux, if_neg hqs] at hr
        exact ih cur hq r hr t ht

theorem burstRunsAux_chain (thr gap : ℚ) :
    ∀ (rest cur : List GuidingSample),
    List.Chain' (fun a b => a.ts - b.ts ≤ gap) cur →
    ∀ r ∈ burstRunsAux thr gap cur rest,
      List.Chain' (fun a b => b.ts - a.ts ≤ gap) r := by
  intro rest
  induction rest with
  | nil =>
      intro cur hchain r hr
      by_cases hc : cur = []
      · simp [burstRunsAux, hc] at hr
      · simp only [burstRunsAux, if_neg hc, List.mem_singleton] at hr
        subst hr
        exact List.chain'_reverse.mpr hchain
  | cons s rest ih =>
      intro cur hchain r hr
      by_cases hqs : thr ≤ s.rms
      · cases cur with
        | nil =>
            simp only [burstRunsAux, if_pos hqs] at hr
            exact ih [s] (List.chain'_singleton s) r hr
        | cons c cs =>
            by_cases hgap2 : s.ts - c.ts ≤ gap
            · simp only [burstRunsAux, if_pos hqs, if_pos hgap2] at hr
              exact ih (s :: c :: cs) (List.chain'_cons.mpr ⟨hgap2, hchain⟩) r hr
            · simp only [burstRunsAux, if_pos hqs, if_neg hgap2,
                List.mem_cons] at hr
              rcases hr with rfl | hr
              · exact List.chain'_reverse.mpr hchain
              · exact ih [s] (List.chain'_singleton s) r hr
      · simp only [burstRunsAux, if_neg hqs] at hr
        exact ih cur hchain r hr

theorem startOf_mem : ∀ (l : List GuidingSample), l ≠ [] →
    ∃ u ∈ l, u.ts = startOf l := by
  intro l hl
  cases l with
  | nil => exact absurd rfl hl
  | cons s rest => exact ⟨s, List.mem_cons_self s rest, rfl⟩

theorem burstRunsAux_span (thr gap : ℚ) (hgap : 0 ≤ gap) :
    ∀ (rest cur : List GuidingSample),
    List.Pairwise (fun a b => a.ts ≤ b.ts) (cur.reverse ++ rest) →
    (∀ t ∈ cur, thr ≤ t.rms) →
    ∀ r ∈ burstRunsAux thr gap cur rest,
    ∀ t ∈ cur.reverse ++ rest,
      startOf r ≤ t.ts → t.ts ≤ endOf r → t ∈ r ∨ t.rms < thr := by
  intro rest
  induction rest with
  | nil =>
      intro cur _ _ r hr t ht _ _
      by_cases hc : cur = []
      · simp [burstRunsAux, hc] at hr
      · simp only [burstRunsAux, if_neg hc, List.mem_singleton] at hr
        subst hr
        rw [List.append_nil] at ht
        exact Or.inl ht
  | cons s rest ih =>
      intro cur hsort hq r hr t ht h1 h2
      by_cases hqs : thr ≤ s.rms
      · cases cur with
        | nil =>
            simp only [burstRunsAux, if_pos hqs] at hr
            have hsort' :
                List.Pairwise (fun a b => a.ts ≤ b.ts) ([s].reverse ++ rest) := by
              simpa using hsort
            have hq' : ∀ u ∈ [s], thr ≤ u.rms := by
              intro u hu
              rw [List.mem_singleton] at hu
              subst hu
              exact hqs
            refine ih [s] hsort' hq' r hr t ?_ h1 h2
            simpa using ht
        | cons c cs =>
            by_cases hgap2 : s.ts - c.ts ≤ gap
            · simp only [burstRunsAux, if_pos hqs, if_pos hgap2] at hr
              have hlist : ((s :: c :: cs).reverse ++ rest : List GuidingSample) =
                  (c :: cs).reverse ++ s :: rest := by
                simp
              have hsort' :
                  List.Pairwise (fun a b => a.ts ≤ b.ts)
                    ((s :: c :: cs).reverse ++ rest) := by
                rw [hlist]
                exact hsort
              have hq' : ∀ u ∈ s :: c :: cs, thr ≤ u.rms := by
                intro u hu
                rcases List.mem_cons.mp hu with rfl | hu
                · exact hqs
                · exact hq u hu
              refine ih (s :: c :: cs) hsort' hq' r hr t ?_ h1 h2
              rw [hlist]
              exact ht
            · simp only [burstRunsAux, if_pos hqs, if_neg hgap2,
                List.mem_cons] at hr
              rcases List.pairwise_append.mp hsort with ⟨hpc, hpr, hcross⟩
              have hle_c : ∀ u ∈ (c :: cs).reverse, u.ts ≤ c.ts := by
                intro u hu
                rw [List.reverse_cons] at hu
                rcases List.mem_append.mp hu with hu | hu
                · have hpc2 := hpc
                  rw [List.reverse_cons] at hpc2
                  rcases List.pairwise_append.mp hpc2 with ⟨_, _, hcx⟩
                  exact hcx u hu c (List.mem_singleton_self c)
                · rw [List.mem_singleton] at hu
                  subst hu
                  exact le_refl _
              have hcs : c.ts < s.ts := by
                have := not_le.mp hgap2
                linarith
              rcases hr with rfl | hr
              · -- r is the closed run (c :: cs).reverse
                rcases List.mem_append.mp ht with htl | htr
                · exact Or.inl htl
                · exfalso
                  have hts : s.ts ≤ t.ts := by
                    rcases List.mem_cons.mp htr with rfl | htr
                    · exact le_refl _
                    · exact (List.pairwise_cons.mp hpr).1 t htr
                  have hend : endOf ((c :: cs).reverse) = c.ts := by
                    simp [endOf, startOf]
                  rw [hend] at h2
                  linarith
              · -- r comes from the recursion that starts the new run at s
                rcases List.mem_append.mp ht with htl | htr
                · exfalso
                  have hsub : r.Sublist (s :: rest) := by
                    simpa using burstRunsAux_sublist thr gap rest [s] r hr
                  have hne : r ≠ [] := burstRunsAux_ne_nil thr gap rest [s] r hr
                  obtain ⟨u, hu, hust⟩ := startOf_mem r hne
                  have hus : u ∈ s :: rest := hsub.subset hu
                  have husts : s.ts ≤ u.ts := by
                    rcases List.mem_cons.mp hus with rfl | hus
                    · exact le_refl _
                    · exact (List.pairwise_cons.mp hpr).1 u hus
                  have htc : t.ts ≤ c.ts := hle_c t htl
                  rw [hust] at husts
                  linarith
                · have hsort' :
                      List.Pairwise (fun a b => a.ts ≤ b.ts)
                        ([s].reverse ++ rest) := by
                    simpa using hpr
                  have hq' : ∀ u ∈ [s], thr ≤ u.rms := by
                    intro u hu
                    rw [List.mem_singleton] at hu
                    subst hu
                    exact hqs
                  refine ih [s] hsort' hq' r hr t ?_ h1 h2
                  simpa using htr
      · simp only [burstRunsAux, if_neg hqs] at hr
        have hsub2 : (cur.reverse ++ rest).Sublist (cur.reverse ++ s :: rest) :=
          (List.sublist_cons_self s rest).append_left cur.reverse
        have hsort' := hsort.sublist hsub2
        rcases List.mem_append.mp ht with htl | htr
        · exact ih cur hsort' hq r hr t (List.mem_append_left _ htl) h1 h2
        · rcases List.mem_cons.mp htr with rfl | htr
          · exact Or.inr (not_le.mp hqs)
          · exact ih cur hsort' hq r hr t (List.mem_append_right _ htr) h1 h2

theorem foldl_max_init_le : ∀ (l : List ℚ) (init : ℚ),
    init ≤ l.foldl max init := by
  intro l
  induction l with
  | nil => intro init; simp
  | cons a t ih =>
      intro init
      rw [List.foldl_cons]
      exact le_trans (le_max_left init a) (ih (max init a))

theorem foldl_max_mem_le : ∀ (l : List ℚ) (init x : ℚ), x ∈ l →
    x ≤ l.foldl max init := by
  intro l
  induction l with
  | nil => intro init x hx; simp at hx
  | cons a t ih =>
      intro init x hx
      rw [List.foldl_cons]
      rcases List.mem_cons.mp hx with rfl | hx
      · exact le_trans (le_max_right init x) (foldl_max_init_le t (max init x))
      · exact ih (max init a) x hx

theorem foldl_max_eq_init_or_mem : ∀ (l : List ℚ) (init : ℚ),
    l.foldl max init = init ∨ l.foldl max init ∈ l := by
  intro l
  induction l with
  | nil => intro init; left; rfl
  | cons a t ih =>
      intro init
      rw [List.foldl_cons]
      rcases ih (max init a) with h | h
      · rw [h]
        rcases max_choice init a with h2 | h2
        · left; exact h2
        · right; rw [h2]; exact List.mem_cons_self a t
      · right
        exact List.mem_cons_of_mem a h

theorem peakOf_ge (r : List GuidingSample) (t : GuidingSample) (ht : t ∈ r) :
    t.rms ≤ peakOf r := by
  cases r with
  | nil => simp at ht
  | cons s rest =>
      rcases List.mem_cons.mp ht with rfl | ht
      · exact foldl_max_init_le _ _
      · exact foldl_max_mem_le _ _ _ (List.mem_map_of_mem GuidingSample.rms ht)

theorem peakOf_mem (r : List GuidingSample) (hne : r ≠ []) :
    ∃ t ∈ r, t.rms = peakOf r := by
  cases r with
  | nil => exact absurd rfl hne
  | cons s rest =>
      rcases foldl_max_eq_init_or_mem (rest.map GuidingSample.rms) s.rms with h | h
      · exact ⟨s, List.mem_cons_self _ _, by simp [peakOf, h]⟩
      · obtain ⟨t, ht, hrt⟩ := List.mem_map.mp h
        exact ⟨t, List.mem_cons_of_mem s ht, by simp [peakOf, hrt]⟩

theorem startOf_le_mem (l : List GuidingSample)
    (h : l.Pairwise (fun a b => a.ts ≤ b.ts)) :
    ∀ t ∈ l, startOf l ≤ t.ts := by
  cases l with
  | nil => intro t ht; simp at ht
  | cons s rest =>
      intro t ht
      rcases List.mem_cons.mp ht with rfl | ht
      · exact le_refl _
      · exact (List.pairwise_cons.mp h).1 t ht

theorem mem_le_endOf (l : List GuidingSample)
    (h : l.Pairwise (fun a b => a.ts ≤ b.ts)) :
    ∀ t ∈ l, t.ts ≤ endOf l := by
  have h2 : l.reverse.Pairwise (fun a b => b.ts ≤ a.ts) := by
    rw [List.pairwise_reverse]
    exact h
  intro t ht
  have htr : t ∈ l.reverse := List.mem_reverse.mpr ht
  unfold endOf
  cases hrev : l.reverse with
  | nil =>
      rw [hrev] at htr
      simp at htr
  | cons s rest =>
      rw [hrev] at htr h2
      rcases List.mem_cons.mp htr with rfl | htr
      · simp [startOf]
      · simpa [startOf] using (List.pairwise_cons.mp h2).1 t htr

/-- C9 (amended): for time-ordered samples and a nonnegative merge gap,
every detected burst consists of qualifying samples in which each CONSECUTIVE
pair is within the merge gap, and the burst's `peakRms` equals the maximum
sample RMS within the burst's time span: every stream sample falling inside
`[startTs, endTs]` has RMS at most `peakRms`, and `peakRms` is attained by a
sample inside the span.  (Two non-adjacent samples of one burst may be more
than the merge gap apart; see the counterexample.) -/
theorem burst_consecutive_gap_and_peak (thr gap : ℚ) (hgap : 0 ≤ gap)
    (samples : List GuidingSample)
    (hsort : samples.Pairwise (fun a b => a.ts ≤ b.ts)) :
    ∀ b ∈ detectBursts thr gap samples,
      b.samples.Chain' (fun x y => y.ts - x.ts ≤ gap) ∧
      (∀ t ∈ b.samples, thr ≤ t.rms) ∧
      (∀ s ∈ samples, b.startTs ≤ s.ts → s.ts ≤ b.endTs → s.rms ≤ b.peakRms) ∧
      (∃ s ∈ samples, b.startTs ≤ s.ts ∧ s.ts ≤ b.endTs ∧
        s.rms = b.peakRms) := by
  intro b hb
  obtain ⟨r, hr, rfl⟩ := List.mem_map.mp hb
  have hr' : r ∈ burstRunsAux thr gap [] samples := hr
  have hsub : r.Sublist samples := by
    simpa using burstRunsAux_sublist thr gap samples [] r hr'
  have hne : r ≠ [] := burstRunsAux_ne_nil thr gap samples [] r hr'
  have hqual : ∀ t ∈ r, thr ≤ t.rms :=
    burstRunsAux_qualify thr gap samples [] (by simp) r hr'
  have hchain : r.Chain' (fun x y => y.ts - x.ts ≤ gap) :=
    burstRunsAux_chain thr gap samples [] List.chain'_nil r hr'
  have hrsort : r.Pairwise (fun a b => a.ts ≤ b.ts) := hsort.sublist hsub
  have hspan := burstRunsAux_span thr gap hgap samples []
    (by simpa using hsort) (by simp) r hr'
  refine ⟨hchain, hqual, ?_, ?_⟩
  · intro s hs h1 h2
    rcases hspan s (by simpa using hs) h1 h2 with hmem | hlt
    · exact peakOf_ge r s hmem
    · obtain ⟨t, htr, htp⟩ := peakOf_mem r hne
      have hth := hqual t htr
      show s.rms ≤ peakOf r
      linarith
  · obtain ⟨t, htr, htp⟩ := peakOf_mem r hne
    exact ⟨t, hsub.subset htr, startOf_le_mem r hrsort t htr,
      mem_le_endOf r hrsort t htr, htp⟩

/-- The spec's scenario 3: RMS values [1.0, 1.6, 1.7, 1.4, 2.0, 0.9] at
1-second spacing. -/
def guidingCexSamples : List GuidingSample :=
  [⟨0, 1⟩, ⟨1, 8 / 5⟩, ⟨2, 17 / 10⟩, ⟨3, 7 / 5⟩, ⟨4, 2⟩, ⟨5, 9 / 10⟩]

/-- The single burst detected in scenario 3 (samples at 1 s, 2 s and 4 s). -/
def guidingCexBurst : Burst :=
  mkBurst [⟨1, 8 / 5⟩, ⟨2, 17 / 10⟩, ⟨4, 2⟩]

theorem guidingCex_eval :
    detectBursts (3 / 2) 2 guidingCexSamples = [guidingCexBurst] := by
  norm_num [detectBursts, burstRuns, burstRunsAux, guidingCexSamples,
    guidingCexBurst]
  simp

/-- C9 counterexample (the spec's own scenario 3): with threshold 1.5 and
merge gap 2 s the detector produces one burst whose samples at 1 s and 4 s
are 3 s apart — more than the merge gap — refuting "two samples separated by
more than the merge gap never belong to the same burst" for non-adjacent
samples; the burst's peakRms is 2.0 as specified. -/
theorem burst_gap_cex :
    detectBursts (3 / 2) 2 guidingCexSamples = [guidingCexBurst] ∧
    (⟨1, 8 / 5⟩ : GuidingSample) ∈ guidingCexBurst.samples ∧
    (⟨4, 2⟩ : GuidingSample) ∈ guidingCexBurst.samples ∧
    (2 : ℚ) < (4 : ℚ) - (1 : ℚ) ∧
    guidingCexBurst.peakRms = 2 := by
  refine ⟨guidingCex_eval, ?_, ?_, by norm_num, ?_⟩
  · simp [guidingCexBurst, mkBurst]
  · simp [guidingCexBurst, mkBurst]
  · show peakOf [⟨1, 8 / 5⟩, ⟨2, 17 / 10⟩, ⟨4, 2⟩] = 2
    simp only [peakOf, List.map_cons, List.map_nil, List.foldl_cons,
      List.foldl_nil]
    rw [max_eq_right (by norm_num : (8 : ℚ) / 5 ≤ 17 / 10),
      max_eq_right (by norm_num : (17 : ℚ) / 10 ≤ 2)]

/-- Witness for C9 (amended) at the scenario-3 burst. -/
theorem burst_consecutive_gap_and_peak_witness :
    guidingCexBurst.samples.Chain' (fun x y => y.ts - x.ts ≤ 2) ∧
    (∀ t ∈ guidingCexBurst.samples, (3 : ℚ) / 2 ≤ t.rms) ∧
    (∀ s ∈ guidingCexSamples, guidingCexBurst.startTs ≤ s.ts →
        s.ts ≤ guidingCexBurst.endTs → s.rms ≤ guidingCexBurst.peakRms) ∧
    (∃ s ∈ guidingCexSamples, guidingCexBurst.startTs ≤ s.ts ∧
        s.ts ≤ guidingCexBurst.endTs ∧ s.rms = guidingCexBurst.peakRms) :=
  burst_consecutive_gap_and_peak (3 / 2) 2 (by norm_num) guidingCexSamples
    (by decide) guidingCexBurst
    (by rw [guidingCex_eval]; exact List.mem_singleton.mpr rfl)
